import Mathlib

/-!
Verification of the structured configuration diff engine in
`helpers/skills/vllm-compare-reqs/scripts/compare_reqs.py`.

Lines of text are modelled as `List Char`.  Python's `str.split(sep)[0]`
is modelled by `beforeFirst`, `str.split(sep, 1)` by `firstSplit`,
`str.strip()` by `strip`, `str.replace(pat, "")` by `deleteAll`, and the
insertion-ordered `dict` with last-write-wins updates by an association
list with `insertLWW` / `dictFind`.  The `changed` category, which the
script stores as the string `old + " → " + new` and later re-splits on
the arrow, is modelled directly as the pair `(old, new)`.
-/

set_option maxRecDepth 10000

namespace CompareReqs

/-- Characters treated as whitespace by Python's `str.strip()` (ASCII range). -/
def pyWS (c : Char) : Bool :=
  c = ' ' || c = '\t' || c = '\n' || c = '\r' || c = Char.ofNat 11 || c = Char.ofNat 12

abbrev Chars := List Char

/-- Shorthand turning a string literal into its character list. -/
def s2l (s : String) : Chars := s.data

/-- Python `str.strip()`: drop whitespace from both ends. -/
def strip (s : Chars) : Chars :=
  ((s.dropWhile pyWS).reverse.dropWhile pyWS).reverse

/-- Split at the first occurrence of `sep`: `some (before, after)` if `sep`
occurs as a contiguous sublist, `none` otherwise (Python `s.split(sep, 1)`). -/
def firstSplit (sep : Chars) (s : Chars) : Option (Chars × Chars) :=
  if sep.isPrefixOf s then some ([], s.drop sep.length)
  else
    match s with
    | [] => none
    | c :: cs => (firstSplit sep cs).map (fun pr => (c :: pr.1, pr.2))

/-- Python `sep in s`. -/
def occursIn (sep : Chars) (s : Chars) : Bool := (firstSplit sep s).isSome

/-- Python `s.split(sep)[0]`: text before the first occurrence of `sep`
(the whole of `s` when `sep` does not occur). -/
def beforeFirst (sep : Chars) (s : Chars) : Chars :=
  match firstSplit sep s with
  | some pr => pr.1
  | none => s

/-- Python `s.split(sep, 1)[1]` under the guard `sep in s`. -/
def afterFirst (sep : Chars) (s : Chars) : Chars :=
  match firstSplit sep s with
  | some pr => pr.2
  | none => []

/-- Python `s.strip(34.toChar)`: drop double-quote characters from both ends. -/
def stripQuotes (s : Chars) : Chars :=
  ((s.dropWhile (fun c => c = Char.ofNat 34)).reverse.dropWhile
    (fun c => c = Char.ofNat 34)).reverse

/-- Fuel-driven worker for `deleteAll`; the fuel is the string length, which
bounds the number of steps since every step consumes at least one character. -/
def deleteAllFuel (pat : Chars) : Nat → Chars → Chars
  | 0, s => s
  | _ + 1, [] => []
  | fuel + 1, c :: cs =>
    if pat ≠ [] && pat.isPrefixOf (c :: cs) then
      deleteAllFuel pat fuel ((c :: cs).drop pat.length)
    else c :: deleteAllFuel pat fuel cs

/-- Python `s.replace(pat, "")`: delete every (left-to-right, non-overlapping)
occurrence of `pat`; `s.replace("", "")` returns `s` unchanged. -/
def deleteAll (pat s : Chars) : Chars := deleteAllFuel pat s.length s

/-- Iterated `str.split(sep)[0]` over a list of separators, as `main` chains
them when rebuilding identifiers for the summary table. -/
def chainSplit (ss : List Chars) (s : Chars) : Chars :=
  ss.foldl (fun acc sep => beforeFirst sep acc) s

/-- The fixed, ordered separator list of `parse_requirement_line`. -/
def seps : List Chars :=
  [s2l "==", s2l ">=", s2l "<=", s2l ">", s2l "<", s2l "!=", s2l "~=", s2l ";"]

/-- Model of `parse_requirement_line`: returns `(package_name?, full_line)`
where `full_line` is the stripped input line. -/
def parse_requirement_line (line : Chars) : Option Chars × Chars :=
  let l := strip line
  if l = [] ∨ l.head? = some '#' then (none, l)
  else if l.head? = some '-' then (none, l)
  else
    match seps.find? (fun sep => occursIn sep l) with
    | some sep => (some (strip (beforeFirst sep l)), l)
    | none => (some (strip l), l)

/-- Classification of one requirement line, as `compare_files` consumes the
parser's output: `named` lines go into the package mapping, parse results
with no name go to the special list when non-empty and not a comment. -/
inductive LineClass where
  | named : Chars → LineClass
  | special : LineClass
  | ignored : LineClass
deriving DecidableEq

def classifyLine (line : Chars) : LineClass :=
  match parse_requirement_line line with
  | (some id, _) => .named id
  | (none, full) => if full ≠ [] ∧ full.head? ≠ some '#' then .special else .ignored

/-- Insertion-ordered dict update: an existing key keeps its position and gets
the new value (last write wins); a new key is appended. -/
def insertLWW {β : Type} (k : Chars) (v : β) : List (Chars × β) → List (Chars × β)
  | [] => [(k, v)]
  | (k', v') :: rest =>
    if k' = k then (k', v) :: rest else (k', v') :: insertLWW k v rest

/-- Dict lookup on the association list. -/
def dictFind {β : Type} (m : List (Chars × β)) (k : Chars) : Option β :=
  (m.find? (fun kv => kv.1 = k)).map (fun kv => kv.2)

/-- The `old_packages` / `new_packages` dict of `compare_files`. -/
def buildPackages (lines : List Chars) : List (Chars × Chars) :=
  lines.foldl
    (fun m line =>
      match parse_requirement_line line with
      | (some k, full) => insertLWW k full m
      | (none, _) => m)
    []

/-- The `old_special` / `new_special` list of `compare_files`. -/
def specialLines (lines : List Chars) : List Chars :=
  lines.foldl
    (fun acc line =>
      match parse_requirement_line line with
      | (some _, _) => acc
      | (none, full) =>
        if full ≠ [] ∧ full.head? ≠ some '#' then acc ++ [full] else acc)
    []

structure ChangeSet where
  changed : List (Chars × Chars)
  added : List Chars
  removed : List Chars
  special : List Chars
deriving DecidableEq

/-- Model of `compare_files` (the `changed` strings `old + arrow + new` are
kept as the pair `(old, new)`). -/
def compare_files (old_lines new_lines : List Chars) : ChangeSet :=
  let old_packages := buildPackages old_lines
  let new_packages := buildPackages new_lines
  let old_special := specialLines old_lines
  let new_special := specialLines new_lines
  let cr :=
    old_packages.foldl
      (fun acc kv =>
        match dictFind new_packages kv.1 with
        | some w => if kv.2 ≠ w then (acc.1 ++ [(kv.2, w)], acc.2) else acc
        | none => (acc.1, acc.2 ++ [kv.2]))
      ([], [])
  let added :=
    new_packages.foldl
      (fun acc kv =>
        match dictFind old_packages kv.1 with
        | some _ => acc
        | none => acc ++ [kv.2])
      []
  let special :=
    old_special.foldl
      (fun acc l => if l ∈ new_special then acc else acc ++ ['-' :: ' ' :: l]) []
    ++ new_special.foldl
      (fun acc l => if l ∈ old_special then acc else acc ++ ['+' :: ' ' :: l]) []
  { changed := cr.1, added := added, removed := cr.2, special := special }

/-- Model of `parse_dockerfile_args`: dict of `ARG` name to unquoted value. -/
def parse_dockerfile_args (lines : List Chars) : List (Chars × Chars) :=
  lines.foldl
    (fun args line =>
      let l := strip line
      if (s2l "ARG ").isPrefixOf l then
        let arg_content := strip (l.drop 4)
        match firstSplit (s2l "=") arg_content with
        | some kv => insertLWW (strip kv.1) (stripQuotes (strip kv.2)) args
        | none => args
      else args)
    []

/-- Model of `compare_dockerfiles`: entries are rendered as `name=value`
character lists, `changed` as a pair of them. -/
def compare_dockerfiles (old_lines new_lines : List Chars) : ChangeSet :=
  let old_args := parse_dockerfile_args old_lines
  let new_args := parse_dockerfile_args new_lines
  let cr :=
    old_args.foldl
      (fun acc kv =>
        match dictFind new_args kv.1 with
        | some w =>
          if kv.2 ≠ w then
            (acc.1 ++ [(kv.1 ++ '=' :: kv.2, kv.1 ++ '=' :: w)], acc.2)
          else acc
        | none => (acc.1, acc.2 ++ [kv.1 ++ '=' :: kv.2]))
      ([], [])
  let added :=
    new_args.foldl
      (fun acc kv =>
        match dictFind old_args kv.1 with
        | some _ => acc
        | none => acc ++ [kv.1 ++ '=' :: kv.2])
      []
  { changed := cr.1, added := added, removed := cr.2, special := [] }

/-- The static `VARIANT_CONFIG` table: requirements files and Dockerfiles. -/
def VARIANT_CONFIG : List (Chars × (List Chars × List Chars)) :=
  [ (s2l "rocm",
      ([s2l "common.txt", s2l "rocm.txt", s2l "rocm-build.txt"],
       [s2l "docker/Dockerfile.rocm", s2l "docker/Dockerfile.rocm_base"])),
    (s2l "cuda",
      ([s2l "common.txt", s2l "cuda.txt"], [s2l "docker/Dockerfile"])),
    (s2l "cpu",
      ([s2l "common.txt", s2l "cpu.txt", s2l "cpu-build.txt"],
       [s2l "docker/Dockerfile.cpu"])),
    (s2l "tpu",
      ([s2l "common.txt", s2l "tpu.txt"], [s2l "docker/Dockerfile.tpu"])),
    (s2l "xpu",
      ([s2l "common.txt", s2l "xpu.txt"], [s2l "docker/Dockerfile.xpu"])) ]

/-- Python `str.lower()` on the ASCII selectors used here. -/
def lowerLine (s : Chars) : Chars := s.map Char.toLower

/-- Model of `main`'s selector resolution: lowercase the selector, use the
variant's requirements followed by its Dockerfiles when it is a known
variant key, otherwise fall back to the single (lowercased) file name. -/
def resolveSelector (s : Chars) : List Chars :=
  let v := lowerLine s
  match dictFind VARIANT_CONFIG v with
  | some cfg => cfg.1 ++ cfg.2
  | none => [v]

/-- Model of `filename.startswith(s2l-docker-slash)` used to pick the
Dockerfile comparison and URL path. -/
def isBuildFile (f : Chars) : Bool := (s2l "docker/").isPrefixOf f

inductive RowKind where
  | changed
  | added
  | removed
deriving DecidableEq

/-- One row of `main`'s summary table (the file-name column is per-file
context and omitted). -/
structure Row where
  pkg : Chars
  oldVer : Chars
  newVer : Chars
  kind : RowKind
deriving DecidableEq

/-- The separators `main` chains for `changed` rows of requirements files. -/
def aggSepsChanged : List Chars := [s2l "==", s2l ">=", s2l "<=", s2l ">", s2l "<"]

/-- The separators `main` chains for `added` / `removed` rows. -/
def aggSepsEntry : List Chars :=
  [s2l "==", s2l ">=", s2l "<=", s2l ">", s2l "<", s2l ";", s2l "#"]

/-- `main`'s chained requirement split for `changed` rows. -/
def reqChangedPkg (part : Chars) : Chars := strip (chainSplit aggSepsChanged part)

/-- `main`'s chained requirement split for `added` / `removed` rows. -/
def reqEntryPkg (l : Chars) : Chars := strip (chainSplit aggSepsEntry l)

/-- Summary-table row built from a requirements `changed` pair. -/
def reqChangedRow (pr : Chars × Chars) : Row :=
  let old_pkg := reqChangedPkg pr.1
  let new_pkg := reqChangedPkg pr.2
  { pkg := old_pkg
    oldVer := strip (deleteAll old_pkg pr.1)
    newVer := strip (deleteAll new_pkg pr.2)
    kind := .changed }

/-- Summary-table row built from a requirements `added` line. -/
def reqAddedRow (l : Chars) : Row :=
  let p := reqEntryPkg l
  { pkg := p
    oldVer := s2l "-"
    newVer := strip (beforeFirst (s2l "#") (deleteAll p l))
    kind := .added }

/-- Summary-table row built from a requirements `removed` line. -/
def reqRemovedRow (l : Chars) : Row :=
  let p := reqEntryPkg l
  { pkg := p
    oldVer := strip (beforeFirst (s2l "#") (deleteAll p l))
    newVer := s2l "-"
    kind := .removed }

/-- Summary-table row built from a Dockerfile `changed` pair. -/
def dockChangedRow (pr : Chars × Chars) : Row :=
  if occursIn (s2l "=") pr.1 && occursIn (s2l "=") pr.2 then
    { pkg := strip (beforeFirst (s2l "=") pr.1)
      oldVer := strip (afterFirst (s2l "=") pr.1)
      newVer := strip (afterFirst (s2l "=") pr.2)
      kind := .changed }
  else
    { pkg := strip pr.1, oldVer := [], newVer := [], kind := .changed }

/-- Summary-table row built from a Dockerfile `added` line. -/
def dockAddedRow (l : Chars) : Row :=
  if occursIn (s2l "=") l then
    { pkg := strip (beforeFirst (s2l "=") l)
      oldVer := s2l "-"
      newVer := strip (afterFirst (s2l "=") l)
      kind := .added }
  else { pkg := strip l, oldVer := s2l "-", newVer := [], kind := .added }

/-- Summary-table row built from a Dockerfile `removed` line. -/
def dockRemovedRow (l : Chars) : Row :=
  if occursIn (s2l "=") l then
    { pkg := strip (beforeFirst (s2l "=") l)
      oldVer := strip (afterFirst (s2l "=") l)
      newVer := s2l "-"
      kind := .removed }
  else { pkg := strip l, oldVer := [], newVer := s2l "-", kind := .removed }

/-- Model of `main`'s per-file summary-table construction: `changed` rows
first, then `added`, then `removed`, each in source order. -/
def tableRowsFor (isDock : Bool) (cs : ChangeSet) : List Row :=
  cs.changed.foldl
    (fun acc pr => acc ++ [if isDock then dockChangedRow pr else reqChangedRow pr])
    []
  ++ cs.added.foldl
    (fun acc l => acc ++ [if isDock then dockAddedRow l else reqAddedRow l]) []
  ++ cs.removed.foldl
    (fun acc l => acc ++ [if isDock then dockRemovedRow l else reqRemovedRow l]) []

/-- Specification-side notion for last-write-wins: the full text of the last
line of `L` that parses to a named entry with identifier `k`. -/
def lastDeclaredText (k : Chars) (L : List Chars) : Option Chars :=
  L.foldl
    (fun acc line =>
      match parse_requirement_line line with
      | (some k', full) => if k' = k then some full else acc
      | (none, _) => acc)
    none

/-! Helper lemmas about `strip`. -/

lemma dropWhile_eq_self_of_head {α : Type} (p : α → Bool) (l : List α)
    (h : ∀ c, l.head? = some c → p c = false) : l.dropWhile p = l := by
  cases l with
  | nil => rfl
  | cons a l => simp [List.dropWhile_cons, h a rfl]

lemma strip_head_not_ws (s : Chars) :
    ∀ c, (strip s).head? = some c → pyWS c = false := by
  intro c hc
  unfold strip at hc
  rw [List.head?_reverse] at hc
  obtain ⟨t, ht⟩ := @List.dropWhile_suffix Char (s.dropWhile pyWS).reverse pyWS
  have h3 : (s.dropWhile pyWS).reverse.getLast? = some c := by
    rw [← ht, List.getLast?_append, hc, Option.or_some]
  rw [List.getLast?_reverse] at h3
  have h4 := List.head?_dropWhile_not pyWS s
  rw [h3] at h4
  exact h4

lemma strip_last_not_ws (s : Chars) :
    ∀ c, (strip s).getLast? = some c → pyWS c = false := by
  intro c hc
  unfold strip at hc
  rw [List.getLast?_reverse] at hc
  have h4 := List.head?_dropWhile_not pyWS (s.dropWhile pyWS).reverse
  rw [hc] at h4
  exact h4

lemma strip_idem (s : Chars) : strip (strip s) = strip s := by
  show (((strip s).dropWhile pyWS).reverse.dropWhile pyWS).reverse = strip s
  rw [dropWhile_eq_self_of_head pyWS _ (strip_head_not_ws s)]
  have h2 : (strip s).reverse.dropWhile pyWS = (strip s).reverse := by
    apply dropWhile_eq_self_of_head
    intro c hc
    rw [List.head?_reverse] at hc
    exact strip_last_not_ws s c hc
  rw [h2, List.reverse_reverse]

/-! Helper lemmas about `firstSplit`, `occursIn`, `beforeFirst`. -/

lemma firstSplit_of_isPrefixOf {sep s : Chars} (h : sep.isPrefixOf s = true) :
    firstSplit sep s = some ([], s.drop sep.length) := by
  unfold firstSplit
  rw [if_pos h]

lemma firstSplit_cons_neg {sep : Chars} {c : Char} {cs : Chars}
    (h : sep.isPrefixOf (c :: cs) = false) :
    firstSplit sep (c :: cs) = (firstSplit sep cs).map (fun pr => (c :: pr.1, pr.2)) := by
  show (if sep.isPrefixOf (c :: cs) then some ([], (c :: cs).drop sep.length)
      else (firstSplit sep cs).map (fun pr => (c :: pr.1, pr.2)))
    = (firstSplit sep cs).map (fun pr => (c :: pr.1, pr.2))
  rw [if_neg (by simp [h])]

lemma occursIn_append_sep (s p r : Chars) : occursIn s (p ++ s ++ r) = true := by
  induction p with
  | nil =>
    simp only [List.nil_append]
    unfold occursIn
    rw [firstSplit_of_isPrefixOf (List.isPrefixOf_iff_prefix.mpr (List.prefix_append s r))]
    rfl
  | cons c p ih =>
    unfold occursIn at ih ⊢
    simp only [List.cons_append]
    by_cases h : s.isPrefixOf (c :: (p ++ s ++ r)) = true
    · rw [firstSplit_of_isPrefixOf h]; rfl
    · rw [firstSplit_cons_neg (by rwa [Bool.not_eq_true] at h)]
      simpa using ih

lemma firstSplit_first_occurrence (s : Chars) :
    ∀ (p r : Chars), (∀ i, i < p.length → s.isPrefixOf ((p ++ s ++ r).drop i) = false) →
      firstSplit s (p ++ s ++ r) = some (p, r) := by
  intro p
  induction p with
  | nil =>
    intro r _
    simp only [List.nil_append]
    rw [firstSplit_of_isPrefixOf (List.isPrefixOf_iff_prefix.mpr (List.prefix_append s r))]
    rw [List.drop_left]
  | cons c p ih =>
    intro r h
    have h0 : s.isPrefixOf (c :: (p ++ s ++ r)) = false := by
      have h' := h 0 (by simp)
      simp only [List.drop_zero, List.cons_append] at h'
      exact h'
    simp only [List.cons_append]
    rw [firstSplit_cons_neg h0, ih r ?_]
    · rfl
    · intro i hi
      have h' := h (i + 1) (by simp only [List.length_cons]; omega)
      simp only [List.cons_append, List.drop_succ_cons] at h'
      exact h'

lemma beforeFirst_first_occurrence (s p r : Chars)
    (h : ∀ i, i < p.length → s.isPrefixOf ((p ++ s ++ r).drop i) = false) :
    beforeFirst s (p ++ s ++ r) = p := by
  unfold beforeFirst
  rw [firstSplit_first_occurrence s p r h]

/-! A `find?` lemma: the first element of `L` satisfying `P` is `s` when `s`
satisfies `P` and everything before `s` in `L` does not. -/

lemma find?_eq_some_of_first {α : Type} [DecidableEq α] (P : α → Bool) :
    ∀ (L : List α) (s : α), s ∈ L → P s = true →
      (∀ t ∈ L.takeWhile (fun t => t ≠ s), P t = false) → L.find? P = some s := by
  intro L
  induction L with
  | nil => intro s hs; exact absurd hs (List.not_mem_nil s)
  | cons a L ih =>
    intro s hs hP hprior
    by_cases has : a = s
    · subst has
      rw [List.find?_cons_of_pos _ hP]
    · have ha : P a = false := by
        apply hprior
        rw [List.takeWhile_cons_of_pos (by simpa using has)]
        exact List.mem_cons_self a _
      rw [List.find?_cons_of_neg _ (by simp [ha])]
      apply ih s (by
        rcases List.mem_cons.mp hs with h | h
        · exact absurd h.symm has
        · exact h) hP
      intro t ht
      apply hprior
      rw [List.takeWhile_cons_of_pos (by simpa using has)]
      exact List.mem_cons_of_mem a ht

/-! Helper lemmas about the insertion-ordered dict. -/

lemma dictFind_cons {β : Type} (k' : Chars) (v' : β) (m : List (Chars × β)) (k : Chars) :
    dictFind ((k', v') :: m) k = if k' = k then some v' else dictFind m k := by
  unfold dictFind
  by_cases h : k' = k
  · rw [List.find?_cons_of_pos _ (by simpa using h), if_pos h]
    rfl
  · rw [List.find?_cons_of_neg _ (by simpa using h), if_neg h]

lemma dictFind_insertLWW_self {β : Type} (k : Chars) (v : β) :
    ∀ m : List (Chars × β), dictFind (insertLWW k v m) k = some v := by
  intro m
  induction m with
  | nil => rw [insertLWW, dictFind_cons, if_pos rfl]
  | cons kv m ih =>
    obtain ⟨k', v'⟩ := kv
    unfold insertLWW
    by_cases h : k' = k
    · rw [if_pos h, dictFind_cons, if_pos h]
    · rw [if_neg h, dictFind_cons, if_neg h]; exact ih

lemma dictFind_insertLWW_ne {β : Type} (k : Chars) (v : β) (k₂ : Chars) (h : k₂ ≠ k) :
    ∀ m : List (Chars × β), dictFind (insertLWW k v m) k₂ = dictFind m k₂ := by
  intro m
  induction m with
  | nil =>
    rw [insertLWW, dictFind_cons, if_neg (fun hk => h hk.symm)]
  | cons kv m ih =>
    obtain ⟨k', v'⟩ := kv
    unfold insertLWW
    by_cases hk : k' = k
    · rw [if_pos hk, dictFind_cons, dictFind_cons,
        if_neg (fun hc => h (hc.symm.trans hk)), if_neg (fun hc => h (hc.symm.trans hk))]
    · rw [if_neg hk, dictFind_cons, dictFind_cons]
      by_cases hk2 : k' = k₂
      · rw [if_pos hk2, if_pos hk2]
      · rw [if_neg hk2, if_neg hk2]; exact ih

/-- Keys of the dict are pairwise distinct. -/
def NDKeys {β : Type} (m : List (Chars × β)) : Prop := (m.map Prod.fst).Nodup

lemma keys_insertLWW {β : Type} (k : Chars) (v : β) :
    ∀ m : List (Chars × β), (insertLWW k v m).map Prod.fst =
      if k ∈ m.map Prod.fst then m.map Prod.fst else m.map Prod.fst ++ [k] := by
  intro m
  induction m with
  | nil =>
    rw [insertLWW]
    simp only [List.map_cons, List.map_nil]
    rw [if_neg (List.not_mem_nil k), List.nil_append]
  | cons kv m ih =>
    obtain ⟨k', v'⟩ := kv
    unfold insertLWW
    by_cases h : k' = k
    · subst h
      rw [if_pos rfl]
      simp only [List.map_cons]
      rw [if_pos (List.mem_cons_self _ _)]
    · rw [if_neg h]
      simp only [List.map_cons, List.mem_cons, ih]
      by_cases hm : k ∈ m.map Prod.fst
      · rw [if_pos hm, if_pos (Or.inr hm)]
      · rw [if_neg hm, if_neg (by rintro (hc | hc); exact h hc.symm; exact hm hc)]
        simp

lemma NDKeys_insertLWW {β : Type} (k : Chars) (v : β) (m : List (Chars × β))
    (h : NDKeys m) : NDKeys (insertLWW k v m) := by
  unfold NDKeys at h ⊢
  rw [keys_insertLWW]
  by_cases hm : k ∈ m.map Prod.fst
  · rwa [if_pos hm]
  · rw [if_neg hm, ← List.concat_eq_append]
    exact h.concat hm

lemma NDKeys_buildPackages (L : List Chars) : NDKeys (buildPackages L) := by
  suffices h : ∀ (M : List Chars) (m : List (Chars × Chars)), NDKeys m →
      NDKeys (M.foldl (fun m line =>
        match parse_requirement_line line with
        | (some k, full) => insertLWW k full m
        | (none, _) => m) m) by
    exact h L [] (by simp [NDKeys])
  intro M
  induction M with
  | nil => intro m hm; exact hm
  | cons line M ih =>
    intro m hm
    rw [List.foldl_cons]
    apply ih
    rcases hp : parse_requirement_line line with ⟨pk, full⟩
    cases pk with
    | none => simpa [hp] using hm
    | some k => simpa [hp] using NDKeys_insertLWW k full m hm

lemma mem_iff_dictFind {β : Type} {m : List (Chars × β)} (hm : NDKeys m)
    (k : Chars) (v : β) : (k, v) ∈ m ↔ dictFind m k = some v := by
  induction m with
  | nil => simp [dictFind]
  | cons kv m ih =>
    obtain ⟨k', v'⟩ := kv
    have hnd : NDKeys m := by
      unfold NDKeys at hm ⊢
      exact (List.nodup_cons.mp hm).2
    have hk' : k' ∉ m.map Prod.fst := by
      unfold NDKeys at hm
      exact (List.nodup_cons.mp hm).1
    rw [dictFind_cons, List.mem_cons]
    by_cases h : k' = k
    · subst h
      rw [if_pos rfl]
      constructor
      · rintro (he | hmem)
        · rw [(Prod.mk.injEq _ _ _ _).mp he.symm |>.2]
        · exact absurd (List.mem_map_of_mem Prod.fst hmem) hk'
      · intro he
        exact Or.inl (by rw [Option.some.injEq] at he; rw [he])
    · rw [if_neg h]
      constructor
      · rintro (he | hmem)
        · exact absurd ((Prod.mk.injEq _ _ _ _).mp he.symm).1 h
        · exact (ih hnd).mp hmem
      · intro he
        exact Or.inr ((ih hnd).mpr he)

/-- Last-write-wins at the lookup level: looking an identifier up in the dict
built from a line list returns the full text of the last line declaring it. -/
lemma dictFind_buildPackages (k : Chars) (L : List Chars) :
    dictFind (buildPackages L) k = lastDeclaredText k L := by
  suffices h : ∀ (M : List Chars) (m : List (Chars × Chars)),
      dictFind (M.foldl (fun m line =>
        match parse_requirement_line line with
        | (some k, full) => insertLWW k full m
        | (none, _) => m) m) k
      = M.foldl (fun acc line =>
        match parse_requirement_line line with
        | (some k', full) => if k' = k then some full else acc
        | (none, _) => acc) (dictFind m k) by
    exact h L []
  intro M
  induction M with
  | nil => intro m; rfl
  | cons line M ih =>
    intro m
    rw [List.foldl_cons, List.foldl_cons, ih]
    congr 1
    rcases hp : parse_requirement_line line with ⟨pk, full⟩
    cases pk with
    | none => simp [hp]
    | some k' =>
      simp only [hp]
      by_cases h : k' = k
      · subst h; rw [dictFind_insertLWW_self, if_pos rfl]
      · rw [dictFind_insertLWW_ne k' full k (Ne.symm h) m, if_neg h]

/-! Generic lemmas turning the script's append-in-a-loop accumulations into
`filterMap` form. -/

lemma foldl_append_list {α β : Type} (f : α → Option β) (step : List β → α → List β)
    (hstep : ∀ acc x, step acc x = acc ++ (f x).toList) :
    ∀ (L : List α) (acc : List β), L.foldl step acc = acc ++ L.filterMap f := by
  intro L
  induction L with
  | nil => intro acc; simp
  | cons x L ih =>
    intro acc
    rw [List.foldl_cons, hstep, ih]
    cases hf : f x with
    | none => simp [List.filterMap_cons, hf]
    | some y => simp [List.filterMap_cons, hf]

lemma foldl_pair_append {α β γ : Type} (f : α → Option β) (g : α → Option γ)
    (step : List β × List γ → α → List β × List γ)
    (hstep : ∀ acc x, step acc x = (acc.1 ++ (f x).toList, acc.2 ++ (g x).toList)) :
    ∀ (L : List α) (acc : List β × List γ),
      L.foldl step acc = (acc.1 ++ L.filterMap f, acc.2 ++ L.filterMap g) := by
  intro L
  induction L with
  | nil => intro acc; simp
  | cons x L ih =>
    intro acc
    rw [List.foldl_cons, hstep, ih]
    cases hf : f x with
    | none =>
      cases hg : g x with
      | none => simp [List.filterMap_cons, hf, hg]
      | some z => simp [List.filterMap_cons, hf, hg]
    | some y =>
      cases hg : g x with
      | none => simp [List.filterMap_cons, hf, hg]
      | some z => simp [List.filterMap_cons, hf, hg]

/-- Entry of the `changed` list contributed by one old-dict entry. -/
def crChangedFn (np : List (Chars × Chars)) (kv : Chars × Chars) :
    Option (Chars × Chars) :=
  match dictFind np kv.1 with
  | some w => if kv.2 ≠ w then some (kv.2, w) else none
  | none => none

/-- Entry of the `removed` (resp. `added`) list contributed by one dict entry
absent from the other side. -/
def crAbsentFn (np : List (Chars × Chars)) (kv : Chars × Chars) : Option Chars :=
  match dictFind np kv.1 with
  | some _ => none
  | none => some kv.2

lemma changed_removed_eq (o n : List Chars) :
    (compare_files o n).changed = (buildPackages o).filterMap (crChangedFn (buildPackages n))
    ∧ (compare_files o n).removed = (buildPackages o).filterMap (crAbsentFn (buildPackages n)) := by
  have h := foldl_pair_append (crChangedFn (buildPackages n)) (crAbsentFn (buildPackages n))
    (fun acc kv =>
      match dictFind (buildPackages n) kv.1 with
      | some w => if kv.2 ≠ w then (acc.1 ++ [(kv.2, w)], acc.2) else acc
      | none => (acc.1, acc.2 ++ [kv.2]))
    (by
      intro acc kv
      unfold crChangedFn crAbsentFn
      cases hd : dictFind (buildPackages n) kv.1 with
      | none => simp [hd]
      | some w =>
        by_cases hv : kv.2 = w
        · simp [hd, hv]
        · simp [hd, hv])
    (buildPackages o) ([], [])
  constructor
  · show ((buildPackages o).foldl (fun acc kv =>
      match dictFind (buildPackages n) kv.1 with
      | some w => if kv.2 ≠ w then (acc.1 ++ [(kv.2, w)], acc.2) else acc
      | none => (acc.1, acc.2 ++ [kv.2])) ([], [])).1 = _
    rw [h]
    simp
  · show ((buildPackages o).foldl (fun acc kv =>
      match dictFind (buildPackages n) kv.1 with
      | some w => if kv.2 ≠ w then (acc.1 ++ [(kv.2, w)], acc.2) else acc
      | none => (acc.1, acc.2 ++ [kv.2])) ([], [])).2 = _
    rw [h]
    simp

lemma added_eq (o n : List Chars) :
    (compare_files o n).added = (buildPackages n).filterMap (crAbsentFn (buildPackages o)) := by
  have h := foldl_append_list (crAbsentFn (buildPackages o))
    (fun acc kv =>
      match dictFind (buildPackages o) kv.1 with
      | some _ => acc
      | none => acc ++ [kv.2])
    (by
      intro acc kv
      unfold crAbsentFn
      cases hd : dictFind (buildPackages o) kv.1 with
      | none => simp [hd]
      | some w => simp [hd])
    (buildPackages n) []
  show (buildPackages n).foldl (fun acc kv =>
      match dictFind (buildPackages o) kv.1 with
      | some _ => acc
      | none => acc ++ [kv.2]) [] = _
  rw [h]
  simp

lemma special_eq (o n : List Chars) :
    (compare_files o n).special =
      (specialLines o).filterMap
        (fun l => if l ∈ specialLines n then none else some ('-' :: ' ' :: l))
      ++ (specialLines n).filterMap
        (fun l => if l ∈ specialLines o then none else some ('+' :: ' ' :: l)) := by
  have h1 := foldl_append_list
    (fun l => if l ∈ specialLines n then none else some ('-' :: ' ' :: l))
    (fun acc l => if l ∈ specialLines n then acc else acc ++ ['-' :: ' ' :: l])
    (by
      intro acc l
      by_cases hl : l ∈ specialLines n
      · simp [hl]
      · simp [hl])
    (specialLines o) []
  have h2 := foldl_append_list
    (fun l => if l ∈ specialLines o then none else some ('+' :: ' ' :: l))
    (fun acc l => if l ∈ specialLines o then acc else acc ++ ['+' :: ' ' :: l])
    (by
      intro acc l
      by_cases hl : l ∈ specialLines o
      · simp [hl]
      · simp [hl])
    (specialLines n) []
  show (specialLines o).foldl
      (fun acc l => if l ∈ specialLines n then acc else acc ++ ['-' :: ' ' :: l]) []
    ++ (specialLines n).foldl
      (fun acc l => if l ∈ specialLines o then acc else acc ++ ['+' :: ' ' :: l]) [] = _
  rw [h1, h2]
  simp

lemma mem_changed_iff (o n : List Chars) (a b : Chars) :
    (a, b) ∈ (compare_files o n).changed ↔
      ∃ k, lastDeclaredText k o = some a ∧ lastDeclaredText k n = some b ∧ a ≠ b := by
  rw [(changed_removed_eq o n).1, List.mem_filterMap]
  constructor
  · rintro ⟨⟨k, v⟩, hmem, hf⟩
    rcases hd : dictFind (buildPackages n) k with _ | w
    · simp only [crChangedFn, hd] at hf
      exact Option.noConfusion hf
    · simp only [crChangedFn, hd] at hf
      by_cases hv : v ≠ w
      · rw [if_pos hv] at hf
        have h1 : v = a := congrArg Prod.fst (Option.some.inj hf)
        have h2 : w = b := congrArg Prod.snd (Option.some.inj hf)
        have ho : dictFind (buildPackages o) k = some v :=
          (mem_iff_dictFind (NDKeys_buildPackages o) k v).mp hmem
        rw [dictFind_buildPackages] at ho hd
        rw [h1] at ho
        rw [h2] at hd
        refine ⟨k, ho, hd, ?_⟩
        rw [← h1, ← h2]
        exact hv
      · rw [if_neg hv] at hf
        exact Option.noConfusion hf
  · rintro ⟨k, ha, hb, hne⟩
    refine ⟨(k, a), ?_, ?_⟩
    · apply (mem_iff_dictFind (NDKeys_buildPackages o) k a).mpr
      rw [dictFind_buildPackages]
      exact ha
    · have hd : dictFind (buildPackages n) k = some b := by
        rw [dictFind_buildPackages]
        exact hb
      simp only [crChangedFn, hd]
      rw [if_pos hne]

lemma mem_absent_iff (base other : List Chars) (l : Chars) :
    l ∈ (buildPackages base).filterMap (crAbsentFn (buildPackages other)) ↔
      ∃ k, lastDeclaredText k base = some l ∧ lastDeclaredText k other = none := by
  rw [List.mem_filterMap]
  constructor
  · rintro ⟨⟨k, v⟩, hmem, hf⟩
    rcases hd : dictFind (buildPackages other) k with _ | w
    · simp only [crAbsentFn, hd] at hf
      have hv : v = l := Option.some.inj hf
      subst hv
      have hb : dictFind (buildPackages base) k = some v :=
        (mem_iff_dictFind (NDKeys_buildPackages base) k v).mp hmem
      rw [dictFind_buildPackages] at hb hd
      exact ⟨k, hb, hd⟩
    · simp only [crAbsentFn, hd] at hf
      exact Option.noConfusion hf
  · rintro ⟨k, hl, hn⟩
    refine ⟨(k, l), ?_, ?_⟩
    · apply (mem_iff_dictFind (NDKeys_buildPackages base) k l).mpr
      rw [dictFind_buildPackages]
      exact hl
    · have hd : dictFind (buildPackages other) k = none := by
        rw [dictFind_buildPackages]
        exact hn
      simp only [crAbsentFn, hd]

lemma filterMap_if_eq {α β : Type} (P : α → Prop) [DecidablePred P] (e : α → β) :
    ∀ L : List α, L.filterMap (fun x => if P x then none else some (e x)) =
      (L.filter (fun x => ¬ P x)).map e := by
  intro L
  induction L with
  | nil => rfl
  | cons x L ih =>
    by_cases h : P x
    · simp [List.filterMap_cons, List.filter_cons, h, ih]
    · simp [List.filterMap_cons, List.filter_cons, h, ih]

/-- C4: the special-line output is computed by list membership over full line
text with no deduplication: each old special line absent from the new special
list yields a minus-prefixed entry in source order, then each new special line
absent from the old special list yields a plus-prefixed entry; duplicates each
contribute their own entry when absent from the other side. -/
theorem c4_special_membership_diff (o n : List Chars) :
    (compare_files o n).special =
      ((specialLines o).filter (fun l => l ∉ specialLines n)).map (fun l => '-' :: ' ' :: l)
      ++ ((specialLines n).filter (fun l => l ∉ specialLines o)).map (fun l => '+' :: ' ' :: l) := by
  rw [special_eq]
  rw [filterMap_if_eq (fun l => l ∈ specialLines n) (fun l => '-' :: ' ' :: l) (specialLines o)]
  rw [filterMap_if_eq (fun l => l ∈ specialLines o) (fun l => '+' :: ' ' :: l) (specialLines n)]

/-- C5: last-write-wins — an entry participates in the changed/added/removed
classification exactly through the full text of the last line of its revision
declaring its identifier; earlier declarations of the same identifier are
invisible to the classification. -/
theorem c5_last_write_wins (o n : List Chars) (a b l : Chars) :
    ((a, b) ∈ (compare_files o n).changed ↔
      ∃ k, lastDeclaredText k o = some a ∧ lastDeclaredText k n = some b ∧ a ≠ b)
    ∧ (l ∈ (compare_files o n).removed ↔
      ∃ k, lastDeclaredText k o = some l ∧ lastDeclaredText k n = none)
    ∧ (l ∈ (compare_files o n).added ↔
      ∃ k, lastDeclaredText k n = some l ∧ lastDeclaredText k o = none) := by
  refine ⟨mem_changed_iff o n a b, ?_, ?_⟩
  · rw [(changed_removed_eq o n).2]
    exact mem_absent_iff o n l
  · rw [added_eq o n]
    exact mem_absent_iff n o l

/-- C7: symmetry — swapping the two revisions turns the added list into the
removed list and vice versa (entrywise, in fact as equal lists), and every
changed pair appears reversed in the swapped comparison. -/
theorem c7_swap_symmetry (o n : List Chars) :
    (compare_files n o).added = (compare_files o n).removed
    ∧ (compare_files n o).removed = (compare_files o n).added
    ∧ ∀ a b, (a, b) ∈ (compare_files o n).changed ↔ (b, a) ∈ (compare_files n o).changed := by
  refine ⟨?_, ?_, ?_⟩
  · rw [added_eq n o, (changed_removed_eq o n).2]
  · rw [(changed_removed_eq n o).2, added_eq o n]
  · intro a b
    rw [mem_changed_iff, mem_changed_iff]
    constructor
    · rintro ⟨k, h1, h2, h3⟩
      exact ⟨k, h2, h1, fun hc => h3 hc.symm⟩
    · rintro ⟨k, h1, h2, h3⟩
      exact ⟨k, h2, h1, fun hc => h3 hc.symm⟩

/-! Facts about the parser used for totality / classification claims. -/

lemma parse_snd (line : Chars) : (parse_requirement_line line).2 = strip line := by
  simp only [parse_requirement_line]
  by_cases h1 : strip line = [] ∨ (strip line).head? = some '#'
  · rw [if_pos h1]
  · rw [if_neg h1]
    by_cases h2 : (strip line).head? = some '-'
    · rw [if_pos h2]
    · rw [if_neg h2]
      cases hf : (seps.find? fun sep => occursIn sep (strip line)) <;> simp [hf]

lemma parse_fst_none_iff (line : Chars) :
    (parse_requirement_line line).1 = none ↔
      (strip line = [] ∨ (strip line).head? = some '#' ∨ (strip line).head? = some '-') := by
  simp only [parse_requirement_line]
  by_cases h1 : strip line = [] ∨ (strip line).head? = some '#'
  · rw [if_pos h1]
    simp only [true_iff]
    tauto
  · rw [if_neg h1]
    by_cases h2 : (strip line).head? = some '-'
    · rw [if_pos h2]
      simp only [true_iff]
      tauto
    · rw [if_neg h2]
      cases hf : (seps.find? fun sep => occursIn sep (strip line)) <;>
        simp [hf] <;> tauto

/-- C8: the classifier is total — for any input line the outcome is exactly one
of named, special, or ignored: blank or comment lines are ignored, flag-style
lines (leading `-` after trimming) are special, and every other non-blank
non-comment line yields a named entry; no input raises an error (all the
modelled functions are total). -/
theorem c8_classifier_total (line : Chars) :
    (classifyLine line = .ignored ↔
      (strip line = [] ∨ (strip line).head? = some '#'))
    ∧ (classifyLine line = .special ↔ (strip line).head? = some '-')
    ∧ ((∃ id, classifyLine line = .named id) ↔
        (strip line ≠ [] ∧ (strip line).head? ≠ some '#'
          ∧ (strip line).head? ≠ some '-')) := by
  have hnone := parse_fst_none_iff line
  have hsnd := parse_snd line
  rcases hp : parse_requirement_line line with ⟨pk, full⟩
  rw [hp] at hnone hsnd
  simp only at hnone hsnd
  subst hsnd
  cases pk with
  | some id =>
    have hcl : classifyLine line = .named id := by
      unfold classifyLine
      rw [hp]
    have hno : ¬(strip line = [] ∨ (strip line).head? = some '#'
        ∨ (strip line).head? = some '-') := by
      intro hc
      exact Option.noConfusion (hnone.mpr hc)
    push_neg at hno
    rw [hcl]
    refine ⟨?_, ?_, ?_⟩
    · simp only [reduceCtorEq, false_iff]
      tauto
    · simp only [reduceCtorEq, false_iff]
      exact hno.2.2
    · simp only [LineClass.named.injEq, exists_eq, exists_eq', true_iff]
      exact hno
  | none =>
    have hcl : classifyLine line =
        if strip line ≠ [] ∧ (strip line).head? ≠ some '#'
        then LineClass.special else LineClass.ignored := by
      unfold classifyLine
      rw [hp]
    have habc : strip line = [] ∨ (strip line).head? = some '#'
        ∨ (strip line).head? = some '-' := hnone.mp rfl
    rw [hcl]
    by_cases hsp : strip line ≠ [] ∧ (strip line).head? ≠ some '#'
    · rw [if_pos hsp]
      have hc : (strip line).head? = some '-' := by tauto
      refine ⟨?_, ?_, ?_⟩
      · simp only [reduceCtorEq, false_iff]
        tauto
      · simp only [true_iff]
        exact hc
      · simp only [reduceCtorEq, exists_false, false_iff]
        intro hcon
        exact hcon.2.2 hc
    · rw [if_neg hsp]
      push_neg at hsp
      refine ⟨?_, ?_, ?_⟩
      · simp only [true_iff]
        by_cases hn : strip line = []
        · exact Or.inl hn
        · exact Or.inr (hsp hn)
      · simp only [reduceCtorEq, false_iff]
        intro hcon
        by_cases hn : strip line = []
        · rw [hn] at hcon
          exact Option.noConfusion hcon
        · have h5 := hsp hn
          rw [h5] at hcon
          have h6 := Option.some.inj hcon
          exact absurd h6 (by decide)
      · simp only [reduceCtorEq, exists_false, false_iff]
        intro hcon
        by_cases hn : strip line = []
        · exact hcon.1 hn
        · exact hcon.2.1 (hsp hn)

/-- C3: the variant lookup is case-insensitive and an unknown selector always
degrades, without any error, to single-file mode with the build-file kind
inferred from the `docker/` path prefix — but the descriptor name used is the
lowercased selector, not the caller's literal selector: the help text's own
example `docker/Dockerfile.rocm` becomes `docker/dockerfile.rocm`. -/
theorem c3_selector_lowercased :
    resolveSelector (s2l "ROCM") =
      [s2l "common.txt", s2l "rocm.txt", s2l "rocm-build.txt",
       s2l "docker/Dockerfile.rocm", s2l "docker/Dockerfile.rocm_base"]
    ∧ resolveSelector (s2l "docker/Dockerfile.rocm") = [s2l "docker/dockerfile.rocm"]
    ∧ s2l "docker/dockerfile.rocm" ≠ s2l "docker/Dockerfile.rocm"
    ∧ isBuildFile (s2l "docker/dockerfile.rocm") = true := by
  decide

/-- C6: counterexample — in the documented ARG scenario the changed category
holds the pair of rendered name=value texts, not the pair of full `ARG` lines
the claim states. -/
theorem c6_changed_is_not_full_line_pair :
    (compare_dockerfiles [s2l "ARG FOO=\"1.0\""]
        [s2l "ARG FOO=\"2.0\"", s2l "ARG BAR=\"x\""]).changed
      = [(s2l "FOO=1.0", s2l "FOO=2.0")]
    ∧ (s2l "ARG FOO=\"1.0\"", s2l "ARG FOO=\"2.0\"") ∉
        (compare_dockerfiles [s2l "ARG FOO=\"1.0\""]
          [s2l "ARG FOO=\"2.0\"", s2l "ARG BAR=\"x\""]).changed := by
  decide

/-- C6 (amended): the ARG scenario yields `changed = [("FOO=1.0", "FOO=2.0")]`
(name and unquoted value, without the `ARG ` keyword), rendered in the summary
table with identifier `FOO` and values `1.0` → `2.0`, and the added category
contains the `BAR` entry `"BAR=x"`, rendered with identifier `BAR`, new value
`x`. -/
theorem c6_arg_scenario :
    compare_dockerfiles [s2l "ARG FOO=\"1.0\""]
        [s2l "ARG FOO=\"2.0\"", s2l "ARG BAR=\"x\""]
      = { changed := [(s2l "FOO=1.0", s2l "FOO=2.0")], added := [s2l "BAR=x"],
          removed := [], special := [] }
    ∧ tableRowsFor true (compare_dockerfiles [s2l "ARG FOO=\"1.0\""]
        [s2l "ARG FOO=\"2.0\"", s2l "ARG BAR=\"x\""])
      = [{ pkg := s2l "FOO", oldVer := s2l "1.0", newVer := s2l "2.0", kind := .changed },
         { pkg := s2l "BAR", oldVer := s2l "-", newVer := s2l "x", kind := .added }] := by
  decide

lemma sep_head_cases {s : Chars} (hs : s ∈ seps) :
    ∃ c t, s = c :: t ∧ c ≠ '#' ∧ c ≠ '-' := by
  simp only [seps, s2l, List.mem_cons, List.not_mem_nil, or_false] at hs
  rcases hs with h | h | h | h | h | h | h | h <;> subst h
  · exact ⟨'=', ['='], rfl, by decide, by decide⟩
  · exact ⟨'>', ['='], rfl, by decide, by decide⟩
  · exact ⟨'<', ['='], rfl, by decide, by decide⟩
  · exact ⟨'>', [], rfl, by decide, by decide⟩
  · exact ⟨'<', [], rfl, by decide, by decide⟩
  · exact ⟨'!', ['='], rfl, by decide, by decide⟩
  · exact ⟨'~', ['='], rfl, by decide, by decide⟩
  · exact ⟨';', [], rfl, by decide, by decide⟩

lemma isPrefixOf_cons_shape {c : Char} {t l : Chars}
    (h : (c :: t).isPrefixOf l = true) : ∃ l', l = c :: l' := by
  cases l with
  | nil => exact absurd h (by simp)
  | cons d l' =>
    rw [List.isPrefixOf_cons₂] at h
    have hc : c = d := by
      have := (Bool.and_eq_true _ _).mp h |>.1
      exact eq_of_beq this
    exact ⟨l', by rw [hc]⟩

/-- Shared helper: the parser's identifier for a line whose priority-chosen
separator `s` first occurs after the prefix `p`. -/
lemma parse_split_eq :
    ∀ line s p r, strip line = p ++ s ++ r →
      (strip line).head? ≠ some '#' → (strip line).head? ≠ some '-' →
      strip line ≠ [] → s ∈ seps →
      (∀ i, i < p.length → s.isPrefixOf ((strip line).drop i) = false) →
      (∀ t ∈ seps.takeWhile (fun t => t ≠ s), occursIn t (strip line) = false) →
      (parse_requirement_line line).1 = some (strip p) := by
  intro line s p r hdec hh hd hne hs hfirst hprior
  have hocc : occursIn s (strip line) = true := by
    rw [hdec]
    exact occursIn_append_sep s p r
  have hfind : seps.find? (fun sep => occursIn sep (strip line)) = some s :=
    find?_eq_some_of_first _ seps s hs hocc hprior
  simp only [parse_requirement_line]
  rw [if_neg (not_or.mpr ⟨hne, hh⟩), if_neg hd, hfind]
  show some (strip (beforeFirst s (strip line))) = some (strip p)
  rw [hdec] at hfirst
  rw [hdec, beforeFirst_first_occurrence s p r hfirst]

/-- Shared helper: with no separator occurring, the identifier is the whole
trimmed line. -/
lemma parse_nosep_eq :
    ∀ line, strip line ≠ [] → (strip line).head? ≠ some '#' →
      (strip line).head? ≠ some '-' →
      (∀ t ∈ seps, occursIn t (strip line) = false) →
      (parse_requirement_line line).1 = some (strip line) := by
  intro line hne hh hd hall
  have hfind : seps.find? (fun sep => occursIn sep (strip line)) = none := by
    rw [List.find?_eq_none]
    intro t ht
    rw [hall t ht]
    exact Bool.false_ne_true
  simp only [parse_requirement_line]
  rw [if_neg (not_or.mpr ⟨hne, hh⟩), if_neg hd, hfind]
  show some (strip (strip line)) = some (strip line)
  rw [strip_idem]

/-- C1 (amended): when the first separator of the priority list
`==, >=, <=, >, <, !=, ~=, ;` occurring anywhere in the (trimmed, non-empty,
non-comment, non-flag) line is `s`, and the first occurrence of `s` decomposes
the trimmed line as `p ++ s ++ r`, the parsed identifier is the
whitespace-trimmed text `strip p` standing before that occurrence — trimmed,
not the raw substring; with no separator at all the identifier is the whole
trimmed line.  The separator is chosen by priority-list order, not by leftmost
position (the witness line has `;` before `==` yet splits on `==`). -/
theorem c1_priority_split :
    (∀ line s p r, strip line = p ++ s ++ r →
      (strip line).head? ≠ some '#' → (strip line).head? ≠ some '-' →
      strip line ≠ [] → s ∈ seps →
      (∀ i, i < p.length → s.isPrefixOf ((strip line).drop i) = false) →
      (∀ t ∈ seps.takeWhile (fun t => t ≠ s), occursIn t (strip line) = false) →
      (parse_requirement_line line).1 = some (strip p))
    ∧ (∀ line, strip line ≠ [] → (strip line).head? ≠ some '#' →
      (strip line).head? ≠ some '-' →
      (∀ t ∈ seps, occursIn t (strip line) = false) →
      (parse_requirement_line line).1 = some (strip line)) :=
  ⟨parse_split_eq, parse_nosep_eq⟩

/-- C1 witness: in `pkg;v ==1.0` the separator `;` occurs leftmost by
position, but the parser splits on the higher-priority `==` and the identifier
is the trimmed prefix `pkg;v`; the separator-free line `plain` parses to
itself. -/
theorem c1_priority_split_witness :
    (parse_requirement_line (s2l "pkg;v ==1.0")).1 = some (s2l "pkg;v")
    ∧ (parse_requirement_line (s2l "plain")).1 = some (s2l "plain") := by
  constructor
  · have h := c1_priority_split.1 (s2l "pkg;v ==1.0") (s2l "==") (s2l "pkg;v ")
      (s2l "1.0") (by decide) (by decide) (by decide) (by decide) (by decide)
      (by decide) (by decide)
    exact h.trans (by decide)
  · have h := c1_priority_split.2 (s2l "plain") (by decide) (by decide) (by decide)
      (by decide)
    exact h.trans (by decide)

/-- C1 counterexample: for the line `pkg ==1.0` the substring of the line
before the first occurrence of the chosen separator `==` is `pkg ` with a
trailing space, but the parser returns the stripped identifier `pkg`, so the
identifier is not that substring. -/
theorem c1_identifier_is_stripped :
    beforeFirst (s2l "==") (strip (s2l "pkg ==1.0")) = s2l "pkg "
    ∧ (parse_requirement_line (s2l "pkg ==1.0")).1 = some (s2l "pkg")
    ∧ some (s2l "pkg") ≠ some (s2l "pkg ") := by
  decide

/-- C9 (amended): a line whose trimmed text begins with the priority-chosen
separator — the first separator in the fixed list occurring anywhere in the
line (for example `==1.0`, but not `;x==1`, which splits on the
higher-priority `==`) — parses to a named entry whose identifier is the empty
string; two such lines land under the empty identifier in both revisions and
can appear as a changed pair. -/
theorem c9_empty_identifier :
    (∀ line s, s ∈ seps → s.isPrefixOf (strip line) = true →
      (∀ t ∈ seps.takeWhile (fun t => t ≠ s), occursIn t (strip line) = false) →
      (parse_requirement_line line).1 = some [])
    ∧ (s2l "==1.0", s2l "==2.0") ∈ (compare_files [s2l "==1.0"] [s2l "==2.0"]).changed := by
  constructor
  · intro line s hs hpre hprior
    obtain ⟨c, t, hshape, hc1, hc2⟩ := sep_head_cases hs
    obtain ⟨l', hl⟩ := isPrefixOf_cons_shape (by rw [← hshape]; exact hpre)
    have hocc : occursIn s (strip line) = true := by
      unfold occursIn
      rw [firstSplit_of_isPrefixOf hpre]
      rfl
    have hfind : seps.find? (fun sep => occursIn sep (strip line)) = some s :=
      find?_eq_some_of_first _ seps s hs hocc hprior
    simp only [parse_requirement_line]
    rw [if_neg (not_or.mpr ⟨by rw [hl]; exact List.cons_ne_nil c l',
      by rw [hl]; simpa using hc1⟩)]
    rw [if_neg (by rw [hl]; simpa using hc2), hfind]
    show some (strip (beforeFirst s (strip line))) = some []
    unfold beforeFirst
    rw [firstSplit_of_isPrefixOf hpre]
    rfl
  · decide

/-- C9 witness: the line `==1.0` starts with the priority-chosen separator
`==` and parses to the empty identifier. -/
theorem c9_empty_identifier_witness :
    (parse_requirement_line (s2l "==1.0")).1 = some [] :=
  c9_empty_identifier.1 (s2l "==1.0") (s2l "==") (by decide) (by decide) (by decide)

/-- C9 counterexample: the line `;x==1` begins with the recognized separator
`;`, yet the parser returns the non-empty identifier `;x` because the
higher-priority `==` occurring later in the line is chosen for the split. -/
theorem c9_leading_separator_nonempty_identifier :
    (s2l ";").isPrefixOf (strip (s2l ";x==1")) = true
    ∧ (s2l ";") ∈ seps
    ∧ (parse_requirement_line (s2l ";x==1")).1 = some (s2l ";x")
    ∧ some (s2l ";x") ≠ some ([] : Chars) := by
  decide

lemma filterMap_some_fn {α β : Type} (h : α → β) (L : List α) :
    L.filterMap (fun x => some (h x)) = L.map h := by
  induction L with
  | nil => rfl
  | cons x L ih => simp [List.filterMap_cons, ih]

lemma tableRowsFor_eq (isDock : Bool) (cs : ChangeSet) :
    tableRowsFor isDock cs =
      cs.changed.map (fun pr => if isDock then dockChangedRow pr else reqChangedRow pr)
      ++ cs.added.map (fun l => if isDock then dockAddedRow l else reqAddedRow l)
      ++ cs.removed.map (fun l => if isDock then dockRemovedRow l else reqRemovedRow l) := by
  unfold tableRowsFor
  rw [foldl_append_list (fun pr => some (if isDock then dockChangedRow pr else reqChangedRow pr))
      _ (by intro acc x; simp) cs.changed [],
    foldl_append_list (fun l => some (if isDock then dockAddedRow l else reqAddedRow l))
      _ (by intro acc x; simp) cs.added [],
    foldl_append_list (fun l => some (if isDock then dockRemovedRow l else reqRemovedRow l))
      _ (by intro acc x; simp) cs.removed []]
  rw [List.nil_append, List.nil_append, List.nil_append]
  rw [filterMap_some_fn, filterMap_some_fn, filterMap_some_fn]

/-- C10 (amended): every requirements-file row of the summary table arises
from a categorized line through the version formulas: delete every occurrence
of the extracted identifier from the full text (a replace-all, not taking the
suffix after the identifier), then — for added and removed rows only —
truncate at the first `#`, and finally trim whitespace.  Later occurrences of
the identifier inside the line are deleted from the reported version as well
(last conjunct). -/
theorem c10_version_replace_all :
    (∀ cs r, r ∈ tableRowsFor false cs →
      (∃ pr ∈ cs.changed, r = reqChangedRow pr)
      ∨ (∃ l ∈ cs.added, r = reqAddedRow l)
      ∨ (∃ l ∈ cs.removed, r = reqRemovedRow l))
    ∧ (∀ pr : Chars × Chars,
        (reqChangedRow pr).oldVer = strip (deleteAll (reqChangedPkg pr.1) pr.1)
        ∧ (reqChangedRow pr).newVer = strip (deleteAll (reqChangedPkg pr.2) pr.2))
    ∧ (∀ l, (reqAddedRow l).newVer
        = strip (beforeFirst (s2l "#") (deleteAll (reqEntryPkg l) l)))
    ∧ (reqChangedRow (s2l "pkg==1.0; platform_pkg", s2l "pkg==2.0")).oldVer
        = s2l "==1.0; platform_" := by
  refine ⟨?_, fun pr => ⟨rfl, rfl⟩, fun l => rfl, by decide⟩
  intro cs r hr
  rw [tableRowsFor_eq] at hr
  simp only [if_neg Bool.false_ne_true, List.mem_append, List.mem_map] at hr
  rcases hr with (⟨pr, hmem, heq⟩ | ⟨l, hmem, heq⟩) | ⟨l, hmem, heq⟩
  · exact Or.inl ⟨pr, hmem, heq.symm⟩
  · exact Or.inr (Or.inl ⟨l, hmem, heq.symm⟩)
  · exact Or.inr (Or.inr ⟨l, hmem, heq.symm⟩)

/-- C10 witness: the single-row table of a one-package changed comparison
arises from its changed pair via the replace-all version formula. -/
theorem c10_version_replace_all_witness :
    (∃ pr ∈ (compare_files [s2l "a==1"] [s2l "a==2"]).changed,
      reqChangedRow (s2l "a==1", s2l "a==2") = reqChangedRow pr)
    ∨ (∃ l ∈ (compare_files [s2l "a==1"] [s2l "a==2"]).added,
      reqChangedRow (s2l "a==1", s2l "a==2") = reqAddedRow l)
    ∨ (∃ l ∈ (compare_files [s2l "a==1"] [s2l "a==2"]).removed,
      reqChangedRow (s2l "a==1", s2l "a==2") = reqRemovedRow l) :=
  c10_version_replace_all.1 (compare_files [s2l "a==1"] [s2l "a==2"])
    (reqChangedRow (s2l "a==1", s2l "a==2")) (by decide)

/-- C10 counterexample: the version field is not simply the full text with all
identifier occurrences deleted — for the changed text `pkg ==1.0` deletion
alone gives ` ==1.0` while the reported version is the trimmed `==1.0`, and
for the added line `pkg==1.0 # pkg pin` deletion alone gives `==1.0 #  pin`
while the reported version is the `#`-truncated, trimmed `==1.0`. -/
theorem c10_version_not_plain_deletion :
    ((reqChangedRow (s2l "pkg ==1.0", s2l "pkg ==2.0")).oldVer = s2l "==1.0"
      ∧ deleteAll (reqChangedPkg (s2l "pkg ==1.0")) (s2l "pkg ==1.0") = s2l " ==1.0"
      ∧ s2l "==1.0" ≠ s2l " ==1.0")
    ∧ ((reqAddedRow (s2l "pkg==1.0 # pkg pin")).newVer = s2l "==1.0"
      ∧ deleteAll (reqEntryPkg (s2l "pkg==1.0 # pkg pin")) (s2l "pkg==1.0 # pkg pin")
          = s2l "==1.0 #  pin"
      ∧ s2l "==1.0" ≠ s2l "==1.0 #  pin") := by
  decide

/-! Machinery for C2: lines built from separator-free segments. -/

/-- Characters that can start or continue one of the split separators
(`=`, `<`, `>`, `;`, `#`, `!`, `~`). -/
def sepChar (c : Char) : Bool :=
  c = '=' || c = '<' || c = '>' || c = ';' || c = '#' || c = '!' || c = '~'

/-- A text segment free of separator characters. -/
def cleanOfSeps (s : Chars) : Bool := s.all (fun c => !sepChar c)

lemma clean_mem {r : Chars} (h : cleanOfSeps r = true) : ∀ c ∈ r, sepChar c = false := by
  intro c hc
  have h2 := (List.all_eq_true.mp h) c hc
  simpa using h2

lemma isPrefixOf_clean_false {t0 : Char} {t' r : Chars}
    (hr : ∀ c ∈ r, sepChar c = false) (ht : sepChar t0 = true) :
    (t0 :: t').isPrefixOf r = false := by
  cases r with
  | nil => simp
  | cons c x =>
    rw [List.isPrefixOf_cons₂]
    have hc : sepChar c = false := hr c (List.mem_cons_self c x)
    have hne : (t0 == c) = false := by
      rw [beq_eq_false_iff_ne]
      intro he
      rw [he, hc] at ht
      exact Bool.noConfusion ht
    rw [hne, Bool.false_and]

lemma isPrefixOf_cons_ne {t0 c : Char} (t' x : Chars) (h : t0 ≠ c) :
    (t0 :: t').isPrefixOf (c :: x) = false := by
  rw [List.isPrefixOf_cons₂, beq_eq_false_iff_ne.mpr h, Bool.false_and]

lemma isPrefixOf_two_clean {t0 t1 : Char} {x : Chars} (h : sepChar t1 = true)
    (hx : ∀ c ∈ x, sepChar c = false) (t' : Chars) :
    (t0 :: t1 :: t').isPrefixOf (t0 :: x) = false := by
  rw [List.isPrefixOf_cons₂, isPrefixOf_clean_false hx h, Bool.and_false]

lemma firstSplit_nil (sep : Chars) (h : sep ≠ []) : firstSplit sep [] = none := by
  show (if sep.isPrefixOf ([] : Chars) then some (([] : Chars), ([] : Chars).drop sep.length)
    else (none : Option (Chars × Chars))) = none
  rcases sep with _ | ⟨c, t⟩
  · exact absurd rfl h
  · rw [if_neg (by simp)]

lemma firstSplit_clean_none {t0 : Char} {t' : Chars} (ht : sepChar t0 = true) :
    ∀ {r : Chars}, (∀ c ∈ r, sepChar c = false) → firstSplit (t0 :: t') r = none := by
  intro r
  induction r with
  | nil => intro _; exact firstSplit_nil _ (List.cons_ne_nil t0 t')
  | cons c x ih =>
    intro hr
    rw [firstSplit_cons_neg (isPrefixOf_clean_false hr ht),
      ih (fun d hd => hr d (List.mem_cons_of_mem c hd))]
    rfl

lemma firstSplit_clean_append {t0 : Char} {t' : Chars} (ht : sepChar t0 = true) :
    ∀ {p : Chars} (x : Chars), (∀ c ∈ p, sepChar c = false) →
      firstSplit (t0 :: t') (p ++ x)
        = (firstSplit (t0 :: t') x).map (fun pr => (p ++ pr.1, pr.2)) := by
  intro p
  induction p with
  | nil =>
    intro x _
    cases h : firstSplit (t0 :: t') x <;> simp [h]
  | cons c p ih =>
    intro x hp
    have hc : sepChar c = false := hp c (List.mem_cons_self c p)
    have hpre : (t0 :: t').isPrefixOf (c :: (p ++ x)) = false := by
      rw [List.isPrefixOf_cons₂]
      have hne : (t0 == c) = false := by
        rw [beq_eq_false_iff_ne]
        intro he
        rw [he, hc] at ht
        exact Bool.noConfusion ht
      rw [hne, Bool.false_and]
    rw [List.cons_append, firstSplit_cons_neg hpre,
      ih x (fun d hd => hp d (List.mem_cons_of_mem c hd))]
    cases h : firstSplit (t0 :: t') x <;> simp [h]

lemma beforeFirst_clean_append {t0 : Char} {t' : Chars} (ht : sepChar t0 = true)
    (p x : Chars) (hp : ∀ c ∈ p, sepChar c = false) :
    beforeFirst (t0 :: t') (p ++ x) = p ++ beforeFirst (t0 :: t') x := by
  unfold beforeFirst
  rw [firstSplit_clean_append ht x hp]
  cases h : firstSplit (t0 :: t') x <;> simp [h]

lemma occursIn_clean_append {t0 : Char} {t' : Chars} (ht : sepChar t0 = true)
    (p x : Chars) (hp : ∀ c ∈ p, sepChar c = false) :
    occursIn (t0 :: t') (p ++ x) = occursIn (t0 :: t') x := by
  unfold occursIn
  rw [firstSplit_clean_append ht x hp]
  cases h : firstSplit (t0 :: t') x <;> simp [h]

lemma occursIn_clean_none {t0 : Char} {t' : Chars} (ht : sepChar t0 = true)
    {r : Chars} (hr : ∀ c ∈ r, sepChar c = false) : occursIn (t0 :: t') r = false := by
  unfold occursIn
  rw [firstSplit_clean_none ht hr]
  rfl

lemma occursIn_cons_of_ne {sep : Chars} {c : Char} {x : Chars}
    (h : sep.isPrefixOf (c :: x) = false) :
    occursIn sep (c :: x) = occursIn sep x := by
  unfold occursIn
  rw [firstSplit_cons_neg h]
  cases hh : firstSplit sep x <;> simp [hh]

lemma beforeFirst_of_not_occurs {sep y : Chars} (h : occursIn sep y = false) :
    beforeFirst sep y = y := by
  unfold occursIn at h
  unfold beforeFirst
  cases hf : firstSplit sep y with
  | none => rfl
  | some pr =>
    rw [hf] at h
    exact absurd h (by simp)

lemma beforeFirst_self_append (s r : Chars) : beforeFirst s (s ++ r) = [] := by
  unfold beforeFirst
  rw [firstSplit_of_isPrefixOf (List.isPrefixOf_iff_prefix.mpr (List.prefix_append s r))]

lemma occursIn_single_ctx {t0 c1 : Char} {t' r : Chars} (ht : sepChar t0 = true)
    (hne : t0 ≠ c1) (hr : ∀ c ∈ r, sepChar c = false) :
    occursIn (t0 :: t') (c1 :: r) = false := by
  rw [occursIn_cons_of_ne (isPrefixOf_cons_ne t' r hne), occursIn_clean_none ht hr]

lemma occursIn_single_ctx' {t0 t1 : Char} {t' r : Chars} (ht : sepChar t0 = true)
    (h1 : sepChar t1 = true) (hr : ∀ c ∈ r, sepChar c = false) :
    occursIn (t0 :: t1 :: t') (t0 :: r) = false := by
  rw [occursIn_cons_of_ne (isPrefixOf_two_clean h1 hr t'), occursIn_clean_none ht hr]

lemma occursIn_pair_ctx {t0 c1 c2 : Char} {t' r : Chars} (ht : sepChar t0 = true)
    (hr : ∀ c ∈ r, sepChar c = false)
    (h1 : (t0 :: t').isPrefixOf (c1 :: c2 :: r) = false)
    (h2 : (t0 :: t').isPrefixOf (c2 :: r) = false) :
    occursIn (t0 :: t') (c1 :: c2 :: r) = false := by
  rw [occursIn_cons_of_ne h1, occursIn_cons_of_ne h2, occursIn_clean_none ht hr]

lemma chainSplit_cons (t : Chars) (S : List Chars) (y : Chars) :
    chainSplit (t :: S) y = chainSplit S (beforeFirst t y) := rfl

lemma chainSplit_append_list (A B : List Chars) (y : Chars) :
    chainSplit (A ++ B) y = chainSplit B (chainSplit A y) := by
  unfold chainSplit
  rw [List.foldl_append]

lemma chainSplit_nil_input :
    ∀ (S : List Chars), (∀ t ∈ S, t ≠ []) → chainSplit S [] = [] := by
  intro S
  induction S with
  | nil => intro _; rfl
  | cons t S ih =>
    intro hS
    rw [chainSplit_cons]
    have hb : beforeFirst t [] = [] := by
      unfold beforeFirst
      rw [firstSplit_nil t (hS t (List.mem_cons_self t S))]
    rw [hb]
    exact ih (fun u hu => hS u (List.mem_cons_of_mem t hu))

lemma chainSplit_clean_append :
    ∀ (S : List Chars), (∀ t ∈ S, ∃ t0 t', t = t0 :: t' ∧ sepChar t0 = true) →
    ∀ (p x : Chars), (∀ c ∈ p, sepChar c = false) →
      chainSplit S (p ++ x) = p ++ chainSplit S x := by
  intro S
  induction S with
  | nil => intro _ p x _; rfl
  | cons t S ih =>
    intro hS p x hp
    obtain ⟨t0, t', hshape, ht⟩ := hS t (List.mem_cons_self t S)
    subst hshape
    rw [chainSplit_cons, chainSplit_cons, beforeFirst_clean_append ht p x hp]
    exact ih (fun u hu => hS u (List.mem_cons_of_mem _ hu)) p _ hp

lemma chainSplit_clean_id :
    ∀ (S : List Chars), (∀ t ∈ S, ∃ t0 t', t = t0 :: t' ∧ sepChar t0 = true) →
    ∀ (y : Chars), (∀ c ∈ y, sepChar c = false) → chainSplit S y = y := by
  intro S
  induction S with
  | nil => intro _ y _; rfl
  | cons t S ih =>
    intro hS y hy
    obtain ⟨t0, t', hshape, ht⟩ := hS t (List.mem_cons_self t S)
    subst hshape
    rw [chainSplit_cons, beforeFirst_of_not_occurs (occursIn_clean_none ht hy)]
    exact ih (fun u hu => hS u (List.mem_cons_of_mem _ hu)) y hy

lemma sep_shape : ∀ t ∈ seps, ∃ t0 t', t = t0 :: t' ∧ sepChar t0 = true := by
  intro t ht
  simp only [seps, s2l, List.mem_cons, List.not_mem_nil, or_false] at ht
  rcases ht with h | h | h | h | h | h | h | h <;> subst h
  · exact ⟨'=', ['='], rfl, by decide⟩
  · exact ⟨'>', ['='], rfl, by decide⟩
  · exact ⟨'<', ['='], rfl, by decide⟩
  · exact ⟨'>', [], rfl, by decide⟩
  · exact ⟨'<', [], rfl, by decide⟩
  · exact ⟨'!', ['='], rfl, by decide⟩
  · exact ⟨'~', ['='], rfl, by decide⟩
  · exact ⟨';', [], rfl, by decide⟩

lemma aggSepsChanged_shape :
    ∀ t ∈ aggSepsChanged, ∃ t0 t', t = t0 :: t' ∧ sepChar t0 = true := by
  intro t ht
  simp only [aggSepsChanged, s2l, List.mem_cons, List.not_mem_nil, or_false] at ht
  rcases ht with h | h | h | h | h <;> subst h
  · exact ⟨'=', ['='], rfl, by decide⟩
  · exact ⟨'>', ['='], rfl, by decide⟩
  · exact ⟨'<', ['='], rfl, by decide⟩
  · exact ⟨'>', [], rfl, by decide⟩
  · exact ⟨'<', [], rfl, by decide⟩

lemma aggSepsEntry_shape :
    ∀ t ∈ aggSepsEntry, ∃ t0 t', t = t0 :: t' ∧ sepChar t0 = true := by
  intro t ht
  simp only [aggSepsEntry, s2l, List.mem_cons, List.not_mem_nil, or_false] at ht
  rcases ht with h | h | h | h | h | h | h <;> subst h
  · exact ⟨'=', ['='], rfl, by decide⟩
  · exact ⟨'>', ['='], rfl, by decide⟩
  · exact ⟨'<', ['='], rfl, by decide⟩
  · exact ⟨'>', [], rfl, by decide⟩
  · exact ⟨'<', [], rfl, by decide⟩
  · exact ⟨';', [], rfl, by decide⟩
  · exact ⟨'#', [], rfl, by decide⟩

lemma no_early_occurrence {t0 : Char} {t' p : Chars} (x : Chars)
    (ht : sepChar t0 = true) (hp : ∀ c ∈ p, sepChar c = false) :
    ∀ i, i < p.length → (t0 :: t').isPrefixOf ((p ++ x).drop i) = false := by
  intro i hi
  rw [List.drop_append_of_le_length (le_of_lt hi)]
  rcases hdrop : p.drop i with _ | ⟨c, rest⟩
  · rw [List.drop_eq_nil_iff] at hdrop
    omega
  · have hc : c ∈ p := List.drop_subset i p (by rw [hdrop]; exact List.mem_cons_self c rest)
    refine isPrefixOf_cons_ne _ _ (fun he => ?_)
    rw [he, hp c hc] at ht
    exact Bool.noConfusion ht

lemma chainSplit_id_of_not_occurs :
    ∀ (S : List Chars) (y : Chars), (∀ t ∈ S, occursIn t y = false) →
      chainSplit S y = y := by
  intro S
  induction S with
  | nil => intro y _; rfl
  | cons t S ih =>
    intro y h
    rw [chainSplit_cons, beforeFirst_of_not_occurs (h t (List.mem_cons_self t S))]
    exact ih y (fun u hu => h u (List.mem_cons_of_mem t hu))

lemma kill_changed :
    ∀ (s r : Chars), s ∈ aggSepsChanged → (∀ c ∈ r, sepChar c = false) →
      chainSplit aggSepsChanged (s ++ r) = [] := by
  intro s r hs hr
  simp only [aggSepsChanged, s2l, List.mem_cons, List.not_mem_nil, or_false] at hs
  rcases hs with h | h | h | h | h <;> subst h
  · show chainSplit aggSepsChanged (s2l "==" ++ r) = []
    rw [show aggSepsChanged = s2l "==" :: [s2l ">=", s2l "<=", s2l ">", s2l "<"] from rfl,
      chainSplit_cons, beforeFirst_self_append]
    exact chainSplit_nil_input _ (by decide)
  · show chainSplit aggSepsChanged (s2l ">=" ++ r) = []
    have f1 : occursIn (s2l "==") (s2l ">=" ++ r) = false := by
      show occursIn ('=' :: ['=']) ('>' :: ('=' :: r)) = false
      exact occursIn_pair_ctx (by decide) hr (isPrefixOf_cons_ne _ _ (by decide))
        (isPrefixOf_two_clean (by decide) hr [])
    rw [show aggSepsChanged = s2l "==" :: s2l ">=" :: [s2l "<=", s2l ">", s2l "<"] from rfl,
      chainSplit_cons, beforeFirst_of_not_occurs f1, chainSplit_cons,
      beforeFirst_self_append]
    exact chainSplit_nil_input _ (by decide)
  · show chainSplit aggSepsChanged (s2l "<=" ++ r) = []
    have f1 : occursIn (s2l "==") (s2l "<=" ++ r) = false := by
      show occursIn ('=' :: ['=']) ('<' :: ('=' :: r)) = false
      exact occursIn_pair_ctx (by decide) hr (isPrefixOf_cons_ne _ _ (by decide))
        (isPrefixOf_two_clean (by decide) hr [])
    have f2 : occursIn (s2l ">=") (s2l "<=" ++ r) = false := by
      show occursIn ('>' :: ['=']) ('<' :: ('=' :: r)) = false
      exact occursIn_pair_ctx (by decide) hr (isPrefixOf_cons_ne _ _ (by decide))
        (isPrefixOf_cons_ne _ _ (by decide))
    rw [show aggSepsChanged = s2l "==" :: s2l ">=" :: s2l "<=" :: [s2l ">", s2l "<"] from rfl,
      chainSplit_cons, beforeFirst_of_not_occurs f1, chainSplit_cons,
      beforeFirst_of_not_occurs f2, chainSplit_cons, beforeFirst_self_append]
    exact chainSplit_nil_input _ (by decide)
  · show chainSplit aggSepsChanged (s2l ">" ++ r) = []
    have f1 : occursIn (s2l "==") (s2l ">" ++ r) = false := by
      show occursIn ('=' :: ['=']) ('>' :: r) = false
      exact occursIn_single_ctx (by decide) (by decide) hr
    have f2 : occursIn (s2l ">=") (s2l ">" ++ r) = false := by
      show occursIn ('>' :: ['=']) ('>' :: r) = false
      exact occursIn_single_ctx' (by decide) (by decide) hr
    have f3 : occursIn (s2l "<=") (s2l ">" ++ r) = false := by
      show occursIn ('<' :: ['=']) ('>' :: r) = false
      exact occursIn_single_ctx (by decide) (by decide) hr
    rw [show aggSepsChanged = s2l "==" :: s2l ">=" :: s2l "<=" :: s2l ">" :: [s2l "<"] from rfl,
      chainSplit_cons, beforeFirst_of_not_occurs f1, chainSplit_cons,
      beforeFirst_of_not_occurs f2, chainSplit_cons, beforeFirst_of_not_occurs f3,
      chainSplit_cons, beforeFirst_self_append]
    exact chainSplit_nil_input _ (by decide)
  · show chainSplit aggSepsChanged (s2l "<" ++ r) = []
    have f1 : occursIn (s2l "==") (s2l "<" ++ r) = false := by
      show occursIn ('=' :: ['=']) ('<' :: r) = false
      exact occursIn_single_ctx (by decide) (by decide) hr
    have f2 : occursIn (s2l ">=") (s2l "<" ++ r) = false := by
      show occursIn ('>' :: ['=']) ('<' :: r) = false
      exact occursIn_single_ctx (by decide) (by decide) hr
    have f3 : occursIn (s2l "<=") (s2l "<" ++ r) = false := by
      show occursIn ('<' :: ['=']) ('<' :: r) = false
      exact occursIn_single_ctx' (by decide) (by decide) hr
    have f4 : occursIn (s2l ">") (s2l "<" ++ r) = false := by
      show occursIn ('>' :: []) ('<' :: r) = false
      exact occursIn_single_ctx (by decide) (by decide) hr
    rw [show aggSepsChanged = s2l "==" :: s2l ">=" :: s2l "<=" :: s2l ">" :: s2l "<" :: [] from rfl,
      chainSplit_cons, beforeFirst_of_not_occurs f1, chainSplit_cons,
      beforeFirst_of_not_occurs f2, chainSplit_cons, beforeFirst_of_not_occurs f3,
      chainSplit_cons, beforeFirst_of_not_occurs f4, chainSplit_cons,
      beforeFirst_self_append]
    rfl

lemma kill_entry :
    ∀ (s r : Chars), (s ∈ aggSepsChanged ∨ s = s2l ";") → (∀ c ∈ r, sepChar c = false) →
      chainSplit aggSepsEntry (s ++ r) = [] := by
  intro s r hs hr
  have hsplit : aggSepsEntry = aggSepsChanged ++ [s2l ";", s2l "#"] := by decide
  rcases hs with hs | hs
  · rw [hsplit, chainSplit_append_list, kill_changed s r hs hr]
    exact chainSplit_nil_input _ (by decide)
  · subst hs
    have hid : chainSplit aggSepsChanged (s2l ";" ++ r) = s2l ";" ++ r := by
      apply chainSplit_id_of_not_occurs
      intro t ht
      simp only [aggSepsChanged, s2l, List.mem_cons, List.not_mem_nil, or_false] at ht
      rcases ht with h | h | h | h | h <;> subst h
      · show occursIn ('=' :: ['=']) (';' :: r) = false
        exact occursIn_single_ctx (by decide) (by decide) hr
      · show occursIn ('>' :: ['=']) (';' :: r) = false
        exact occursIn_single_ctx (by decide) (by decide) hr
      · show occursIn ('<' :: ['=']) (';' :: r) = false
        exact occursIn_single_ctx (by decide) (by decide) hr
      · show occursIn ('>' :: []) (';' :: r) = false
        exact occursIn_single_ctx (by decide) (by decide) hr
      · show occursIn ('<' :: []) (';' :: r) = false
        exact occursIn_single_ctx (by decide) (by decide) hr
    rw [hsplit, chainSplit_append_list, hid,
      show ([s2l ";", s2l "#"] : List Chars) = s2l ";" :: [s2l "#"] from rfl,
      chainSplit_cons, beforeFirst_self_append]
    exact chainSplit_nil_input _ (by decide)

lemma reqEntryPkg_eq_of_kill (line p s r : Chars) (hline : line = p ++ s ++ r)
    (hp : ∀ c ∈ p, sepChar c = false)
    (hkill : chainSplit aggSepsEntry (s ++ r) = []) :
    reqEntryPkg line = strip p := by
  unfold reqEntryPkg
  rw [hline, List.append_assoc,
    chainSplit_clean_append aggSepsEntry aggSepsEntry_shape p _ hp, hkill,
    List.append_nil]

lemma reqChangedPkg_eq_of_kill (line p s r : Chars) (hline : line = p ++ s ++ r)
    (hp : ∀ c ∈ p, sepChar c = false)
    (hkill : chainSplit aggSepsChanged (s ++ r) = []) :
    reqChangedPkg line = strip p := by
  unfold reqChangedPkg
  rw [hline, List.append_assoc,
    chainSplit_clean_append aggSepsChanged aggSepsChanged_shape p _ hp, hkill,
    List.append_nil]

lemma c2_case (line p r : Chars) (t0 : Char) (t' : Chars) {s : Chars}
    (hst : s = t0 :: t') (ht0 : sepChar t0 = true)
    (hstrip : strip line = line) (hline : line = p ++ s ++ r)
    (hp : ∀ c ∈ p, sepChar c = false)
    (hh : line.head? ≠ some '#') (hd : line.head? ≠ some '-')
    (hsseps : s ∈ seps)
    (hpriorsr : ∀ t ∈ seps.takeWhile (fun t => t ≠ s), occursIn t (s ++ r) = false) :
    (parse_requirement_line line).1 = some (strip p) := by
  subst hst
  apply parse_split_eq line (t0 :: t') p r
  · rw [hstrip, hline]
  · rw [hstrip]; exact hh
  · rw [hstrip]; exact hd
  · rw [hstrip, hline]
    simp
  · exact hsseps
  · rw [hstrip, hline, List.append_assoc]
    exact no_early_occurrence _ ht0 hp
  · intro t ht
    have htin : t ∈ seps := List.Sublist.subset (List.takeWhile_sublist _) ht
    obtain ⟨u0, u', hu, hu0⟩ := sep_shape t htin
    subst hu
    rw [hstrip, hline, List.append_assoc, occursIn_clean_append hu0 p _ hp]
    exact hpriorsr _ ht

/-- C2 (amended): the aggregator re-splits category texts with chained
leftmost splits over `==, >=, <=, >, <` (changed rows; additionally `;` and
`#` for added/removed rows) — not the parser's priority rule.  The two
extractions do agree on categorized lines of the shape
`identifier ++ separator ++ rest` where identifier and rest are free of
separator characters and the separator is one the aggregator handles, and on
fully separator-free lines; they can differ otherwise (see the
counterexample, where the parser splits `pkg!=1.0` on `!=` but the aggregator
does not). -/
theorem c2_aggregator_split_agreement :
    (∀ line p s r, strip line = line → line = p ++ s ++ r →
      cleanOfSeps p = true → cleanOfSeps r = true →
      line.head? ≠ some '#' → line.head? ≠ some '-' →
      (s ∈ aggSepsChanged ∨ s = s2l ";") →
      (parse_requirement_line line).1 = some (reqEntryPkg line)
      ∧ (s ∈ aggSepsChanged →
          (parse_requirement_line line).1 = some (reqChangedPkg line)))
    ∧ (∀ line, strip line = line → cleanOfSeps line = true → line ≠ [] →
      line.head? ≠ some '-' →
      (parse_requirement_line line).1 = some (reqChangedPkg line)
      ∧ (parse_requirement_line line).1 = some (reqEntryPkg line)) := by
  constructor
  · intro line p s r hstrip hline hp hr hh hd hs
    have hpm := clean_mem hp
    have hrm := clean_mem hr
    have hcase : (∃ t0 t', s = t0 :: t' ∧ sepChar t0 = true) ∧ s ∈ seps
        ∧ (∀ t ∈ seps.takeWhile (fun t => t ≠ s), occursIn t (s ++ r) = false) := by
      rcases hs with hs1 | hs1
      · simp only [aggSepsChanged, List.mem_cons, List.not_mem_nil, or_false] at hs1
        rcases hs1 with h | h | h | h | h <;> subst h
        · refine ⟨⟨'=', ['='], rfl, by decide⟩, by decide, ?_⟩
          have htw : seps.takeWhile (fun t => t ≠ s2l "==") = [] := by decide
          rw [htw]
          intro t ht
          exact absurd ht (List.not_mem_nil t)
        · refine ⟨⟨'>', ['='], rfl, by decide⟩, by decide, ?_⟩
          have htw : seps.takeWhile (fun t => t ≠ s2l ">=") = [s2l "=="] := by decide
          rw [htw]
          intro t ht
          simp only [List.mem_cons, List.not_mem_nil, or_false] at ht
          subst ht
          show occursIn ('=' :: ['=']) ('>' :: ('=' :: r)) = false
          exact occursIn_pair_ctx (by decide) hrm (isPrefixOf_cons_ne _ _ (by decide))
            (isPrefixOf_two_clean (by decide) hrm [])
        · refine ⟨⟨'<', ['='], rfl, by decide⟩, by decide, ?_⟩
          have htw : seps.takeWhile (fun t => t ≠ s2l "<=")
              = [s2l "==", s2l ">="] := by decide
          rw [htw]
          intro t ht
          simp only [List.mem_cons, List.not_mem_nil, or_false] at ht
          rcases ht with h | h <;> subst h
          · show occursIn ('=' :: ['=']) ('<' :: ('=' :: r)) = false
            exact occursIn_pair_ctx (by decide) hrm (isPrefixOf_cons_ne _ _ (by decide))
              (isPrefixOf_two_clean (by decide) hrm [])
          · show occursIn ('>' :: ['=']) ('<' :: ('=' :: r)) = false
            exact occursIn_pair_ctx (by decide) hrm (isPrefixOf_cons_ne _ _ (by decide))
              (isPrefixOf_cons_ne _ _ (by decide))
        · refine ⟨⟨'>', [], rfl, by decide⟩, by decide, ?_⟩
          have htw : seps.takeWhile (fun t => t ≠ s2l ">")
              = [s2l "==", s2l ">=", s2l "<="] := by decide
          rw [htw]
          intro t ht
          simp only [List.mem_cons, List.not_mem_nil, or_false] at ht
          rcases ht with h | h | h <;> subst h
          · show occursIn ('=' :: ['=']) ('>' :: r) = false
            exact occursIn_single_ctx (by decide) (by decide) hrm
          · show occursIn ('>' :: ['=']) ('>' :: r) = false
            exact occursIn_single_ctx' (by decide) (by decide) hrm
          · show occursIn ('<' :: ['=']) ('>' :: r) = false
            exact occursIn_single_ctx (by decide) (by decide) hrm
        · refine ⟨⟨'<', [], rfl, by decide⟩, by decide, ?_⟩
          have htw : seps.takeWhile (fun t => t ≠ s2l "<")
              = [s2l "==", s2l ">=", s2l "<=", s2l ">"] := by decide
          rw [htw]
          intro t ht
          simp only [List.mem_cons, List.not_mem_nil, or_false] at ht
          rcases ht with h | h | h | h <;> subst h
          · show occursIn ('=' :: ['=']) ('<' :: r) = false
            exact occursIn_single_ctx (by decide) (by decide) hrm
          · show occursIn ('>' :: ['=']) ('<' :: r) = false
            exact occursIn_single_ctx (by decide) (by decide) hrm
          · show occursIn ('<' :: ['=']) ('<' :: r) = false
            exact occursIn_single_ctx' (by decide) (by decide) hrm
          · show occursIn ('>' :: []) ('<' :: r) = false
            exact occursIn_single_ctx (by decide) (by decide) hrm
      · subst hs1
        refine ⟨⟨';', [], rfl, by decide⟩, by decide, ?_⟩
        have htw : seps.takeWhile (fun t => t ≠ s2l ";")
            = [s2l "==", s2l ">=", s2l "<=", s2l ">", s2l "<", s2l "!=", s2l "~="] := by
          decide
        rw [htw]
        intro t ht
        simp only [List.mem_cons, List.not_mem_nil, or_false] at ht
        rcases ht with h | h | h | h | h | h | h <;> subst h
        · show occursIn ('=' :: ['=']) (';' :: r) = false
          exact occursIn_single_ctx (by decide) (by decide) hrm
        · show occursIn ('>' :: ['=']) (';' :: r) = false
          exact occursIn_single_ctx (by decide) (by decide) hrm
        · show occursIn ('<' :: ['=']) (';' :: r) = false
          exact occursIn_single_ctx (by decide) (by decide) hrm
        · show occursIn ('>' :: []) (';' :: r) = false
          exact occursIn_single_ctx (by decide) (by decide) hrm
        · show occursIn ('<' :: []) (';' :: r) = false
          exact occursIn_single_ctx (by decide) (by decide) hrm
        · show occursIn ('!' :: ['=']) (';' :: r) = false
          exact occursIn_single_ctx (by decide) (by decide) hrm
        · show occursIn ('~' :: ['=']) (';' :: r) = false
          exact occursIn_single_ctx (by decide) (by decide) hrm
    obtain ⟨⟨t0, t', hst, ht0⟩, hsseps, hpriorsr⟩ := hcase
    have key := c2_case line p r t0 t' hst ht0 hstrip hline hpm hh hd hsseps hpriorsr
    refine ⟨?_, ?_⟩
    · rw [reqEntryPkg_eq_of_kill line p s r hline hpm (kill_entry s r hs hrm)]
      exact key
    · intro hs1
      rw [reqChangedPkg_eq_of_kill line p s r hline hpm (kill_changed s r hs1 hrm)]
      exact key
  · intro line hstrip hcl hne hd
    have hm := clean_mem hcl
    have hh : line.head? ≠ some '#' := by
      cases line with
      | nil => simp
      | cons c x =>
        intro hc
        have hcc : c = '#' := Option.some.inj hc
        have hsc := hm c (List.mem_cons_self c x)
        rw [hcc] at hsc
        exact absurd hsc (by decide)
    have hall : ∀ t ∈ seps, occursIn t (strip line) = false := by
      intro t ht
      obtain ⟨u0, u', hu, hu0⟩ := sep_shape t ht
      subst hu
      rw [hstrip]
      exact occursIn_clean_none hu0 hm
    have hparse := parse_nosep_eq line (by rw [hstrip]; exact hne)
      (by rw [hstrip]; exact hh) (by rw [hstrip]; exact hd) hall
    have hid1 : chainSplit aggSepsChanged line = line := by
      apply chainSplit_id_of_not_occurs
      intro t ht
      obtain ⟨u0, u', hu, hu0⟩ := aggSepsChanged_shape t ht
      subst hu
      exact occursIn_clean_none hu0 hm
    have hid2 : chainSplit aggSepsEntry line = line := by
      apply chainSplit_id_of_not_occurs
      intro t ht
      obtain ⟨u0, u', hu, hu0⟩ := aggSepsEntry_shape t ht
      subst hu
      exact occursIn_clean_none hu0 hm
    have hpkg1 : reqChangedPkg line = line := by
      unfold reqChangedPkg
      rw [hid1, hstrip]
    have hpkg2 : reqEntryPkg line = line := by
      unfold reqEntryPkg
      rw [hid2, hstrip]
    exact ⟨hparse.trans (congrArg some (hstrip.trans hpkg1.symm)),
      hparse.trans (congrArg some (hstrip.trans hpkg2.symm))⟩

/-- C2 witness: on `torch==2.1.0` both the changed-row and added-row
aggregator splits return the parser's identifier; on the separator-free
`plainpkg` the changed-row split agrees as well. -/
theorem c2_aggregator_split_agreement_witness :
    ((parse_requirement_line (s2l "torch==2.1.0")).1
        = some (reqEntryPkg (s2l "torch==2.1.0"))
      ∧ ((s2l "==") ∈ aggSepsChanged →
          (parse_requirement_line (s2l "torch==2.1.0")).1
            = some (reqChangedPkg (s2l "torch==2.1.0"))))
    ∧ (parse_requirement_line (s2l "plainpkg")).1
        = some (reqChangedPkg (s2l "plainpkg")) := by
  constructor
  · exact c2_aggregator_split_agreement.1 (s2l "torch==2.1.0") (s2l "torch") (s2l "==")
      (s2l "2.1.0") (by decide) (by decide) (by decide) (by decide) (by decide)
      (by decide) (Or.inl (by decide))
  · exact (c2_aggregator_split_agreement.2 (s2l "plainpkg") (by decide) (by decide)
      (by decide) (by decide)).1

/-- C2 counterexample: for the added line `pkg!=1.0` the aggregate table's
identifier is the whole line `pkg!=1.0` — the aggregator's chained split set
has no `!=` — while the parser extracts the identifier `pkg`. -/
theorem c2_aggregator_split_divergence :
    tableRowsFor false (compare_files [] [s2l "pkg!=1.0"])
      = [{ pkg := s2l "pkg!=1.0", oldVer := s2l "-", newVer := [], kind := .added }]
    ∧ (parse_requirement_line (s2l "pkg!=1.0")).1 = some (s2l "pkg")
    ∧ s2l "pkg!=1.0" ≠ s2l "pkg" := by
  decide

end CompareReqs
